import Mathlib

/-!
A verification development for the `near-balance-monitoring` repository.

The repository is a NEAR-blockchain balance monitor: a watchlist store of
`(account_id, chat_id)` monitoring entries with durable JSON persistence
(`src/persistence.rs`), a subscriber (user) registry (`UserManager` in
`src/bot.rs`), a background poll cycle that fetches balances and notifies
subscribers on change (the monitoring loop in `src/bot.rs`), and an RPC
client whose transaction fetch deduplicates, sorts and caps the upstream
list (`src/near.rs`).

This file gives a shallow embedding of those parts in Lean:
pure functions mirror the Rust functions, the file system is modelled as a
map from paths to optional file contents, the JSON text layer is modelled
at the level of the JSON data model (an inductive `Json` tree; serde's
`to_string` / `from_str` pair is the identity on that tree), and the
external balance source is an explicit oracle parameter.
-/

/-! ### Data model (`src/bot.rs`, `MonitoredAccount`)

`chat_id` is a Telegram `ChatId`, a wrapper around `i64`; it is modelled as
`Int` (no arithmetic is ever performed on it, only equality).
`last_balance` is `Option<u128>`; balances are only compared for equality,
never added, so they are modelled as `Option Nat`. -/

structure MonitoredAccount where
  account_id : String
  last_balance : Option Nat
  chat_id : Int
deriving DecidableEq, Repr

/-- The in-memory state of `AccountPersistenceManager` (`src/persistence.rs`):
the list of all monitored accounts across all users. The `file_path` field
only parametrises where `save` writes; it is passed explicitly to the
file-system model below instead of being stored. -/
structure AccountPersistenceManager where
  accounts : List MonitoredAccount
deriving DecidableEq, Repr

/-- Result of a mutating store call: the new manager state, the returned
value, and whether the call invoked `save` (persisted a snapshot). -/
structure MutResult (α : Type) where
  manager : AccountPersistenceManager
  result : α
  saved : Bool
deriving Repr

/-- The duplicate / lookup check used throughout `src/persistence.rs`:
`a.account_id == account_id && a.chat_id == chat_id`. -/
def keyMatches (a : MonitoredAccount) (account_id : String) (chat_id : Int) : Bool :=
  a.account_id == account_id && a.chat_id == chat_id

namespace AccountPersistenceManager

/-- `AccountPersistenceManager::add_account` (`src/persistence.rs:138`):
returns `false` without mutation when an entry with the same
`(account_id, chat_id)` already exists; otherwise pushes the account and
saves. -/
def add_account (s : AccountPersistenceManager) (account : MonitoredAccount) :
    MutResult Bool :=
  if s.accounts.any (fun a => keyMatches a account.account_id account.chat_id) then
    ⟨s, false, false⟩
  else
    ⟨⟨s.accounts ++ [account]⟩, true, true⟩

/-- `AccountPersistenceManager::remove_account` (`src/persistence.rs:186`):
`retain`s all entries whose key differs, reports whether the length
decreased, and saves only in that case. -/
def remove_account (s : AccountPersistenceManager) (account_id : String)
    (chat_id : Int) : MutResult Bool :=
  let kept := s.accounts.filter (fun a => !(keyMatches a account_id chat_id))
  let removed := decide (kept.length < s.accounts.length)
  ⟨⟨kept⟩, removed, removed⟩

/-- The `iter_mut().find(...)` + in-place mutation of
`AccountPersistenceManager::update_account`: rewrite the first entry
matching `(old_id, chat_id)` to have the new id and `last_balance = none`;
`none` when no entry matches. -/
def renameFirst (old_id new_id : String) (chat_id : Int) :
    List MonitoredAccount → Option (List MonitoredAccount)
  | [] => none
  | a :: rest =>
    if keyMatches a old_id chat_id then
      some ({ a with account_id := new_id, last_balance := none } :: rest)
    else
      (renameFirst old_id new_id chat_id rest).map (a :: ·)

/-- `AccountPersistenceManager::update_account` (`src/persistence.rs:235`):
finds the entry by `(old_id, chat_id)`, sets `account_id := new_id`,
resets `last_balance` to `None`, and saves; errors with
`"Account {old_id} not found"` and performs no mutation and no save when
no entry matches. -/
def update_account (s : AccountPersistenceManager) (old_id : String)
    (chat_id : Int) (new_id : String) : MutResult (Except String Unit) :=
  match renameFirst old_id new_id chat_id s.accounts with
  | some l => ⟨⟨l⟩, Except.ok (), true⟩
  | none => ⟨s, Except.error ("Account " ++ old_id ++ " not found"), false⟩

/-- The `iter_mut().find(...)` + conditional mutation of
`AccountPersistenceManager::update_balance`: locate the first entry
matching the key; if found, set `last_balance := some balance` when it
differs from the stored value (the `Bool` reports whether a save happened);
`none` when no entry matches. -/
def updateBalanceFirst (account_id : String) (chat_id : Int) (balance : Nat) :
    List MonitoredAccount → Option (List MonitoredAccount × Bool)
  | [] => none
  | a :: rest =>
    if keyMatches a account_id chat_id then
      if a.last_balance ≠ some balance then
        some ({ a with last_balance := some balance } :: rest, true)
      else
        some (a :: rest, false)
    else
      (updateBalanceFirst account_id chat_id balance rest).map
        (fun p => (a :: p.1, p.2))

/-- `AccountPersistenceManager::update_balance` (`src/persistence.rs:290`):
returns whether the entry was found; saves only when the balance actually
changed. -/
def update_balance (s : AccountPersistenceManager) (account_id : String)
    (chat_id : Int) (balance : Nat) : MutResult Bool :=
  match updateBalanceFirst account_id chat_id balance s.accounts with
  | some (l, changed) => ⟨⟨l⟩, true, changed⟩
  | none => ⟨s, false, false⟩

/-- `AccountPersistenceManager::get_accounts_for_chat`
(`src/persistence.rs:336`). -/
def get_accounts_for_chat (s : AccountPersistenceManager) (chat_id : Int) :
    List MonitoredAccount :=
  s.accounts.filter (fun a => a.chat_id == chat_id)

/-- `AccountPersistenceManager::get_all_accounts` (`src/persistence.rs:359`):
a snapshot copy of all entries, used by the monitoring loop. -/
def get_all_accounts (s : AccountPersistenceManager) : List MonitoredAccount :=
  s.accounts

end AccountPersistenceManager

/-- The watchlist entry constructed by the `/add` command handler
(`src/bot.rs:525`): `last_balance` always starts as `None`. `cmdAdd` is the
store-level `add` operation of the spec, i.e. `add_account` applied to that
entry. -/
def cmdAdd (s : AccountPersistenceManager) (account_id : String) (chat_id : Int) :
    MutResult Bool :=
  s.add_account ⟨account_id, none, chat_id⟩

/-- The key-existence test of `add_account`, as a proposition. -/
def hasKey (s : AccountPersistenceManager) (account_id : String) (chat_id : Int) :
    Prop :=
  (s.accounts.any (fun a => keyMatches a account_id chat_id)) = true

instance (s : AccountPersistenceManager) (aid : String) (cid : Int) :
    Decidable (hasKey s aid cid) := by
  unfold hasKey; infer_instance

/-! ### The persistence codec and the file-system model

The textual snapshot is JSON. `serde_json::to_string(_pretty)` followed by
`serde_json::from_str` is the identity on the JSON data model, so file
contents are modelled as values of an inductive `Json` tree and the
repository's codec (the derived `Serialize`/`Deserialize` on
`MonitoredAccount` with the custom `chat_id` (de)serializer, `src/bot.rs:146`)
is modelled as a pair of functions to and from that tree, following the
documented file format of `src/persistence.rs`: a JSON array of objects
with a string `account_id`, an integer-or-null `last_balance` and an
integer `chat_id`. -/

inductive Json where
  | null : Json
  | num (n : Int) : Json
  | str (s : String) : Json
  | arr (elems : List Json) : Json
  | obj (fields : List (String × Json)) : Json

/-- Serialization of one `MonitoredAccount` (derive(Serialize) with
`serialize_chat_id`, `src/bot.rs:146`). -/
def serializeAccount (a : MonitoredAccount) : Json :=
  Json.obj
    [("account_id", Json.str a.account_id),
     ("last_balance", match a.last_balance with
       | none => Json.null
       | some v => Json.num v),
     ("chat_id", Json.num a.chat_id)]

/-- Deserialization of one `MonitoredAccount` (derive(Deserialize) with
`deserialize_chat_id`, `src/bot.rs:146`): a string `account_id`, a
non-negative integer or null `last_balance`, an integer `chat_id`. -/
def parseAccount : Json → Option MonitoredAccount
  | Json.obj [("account_id", Json.str aid), ("last_balance", lb),
              ("chat_id", Json.num cid)] =>
    match lb with
    | Json.null => some ⟨aid, none, cid⟩
    | Json.num v => if v < 0 then none else some ⟨aid, some v.toNat, cid⟩
    | _ => none
  | _ => none

/-- Serialization of the account list: a JSON array. -/
def serializeAccounts (l : List MonitoredAccount) : Json :=
  Json.arr (l.map serializeAccount)

/-- Element-wise deserialization of a JSON list; fails if any element
fails. -/
def parseAccountList : List Json → Option (List MonitoredAccount)
  | [] => some []
  | j :: rest => do
    let a ← parseAccount j
    let l ← parseAccountList rest
    pure (a :: l)

/-- Deserialization of the account list from a snapshot value. -/
def parseAccounts : Json → Option (List MonitoredAccount)
  | Json.arr elems => parseAccountList elems
  | _ => none

/-- `AccountPersistenceManager::load` (`src/persistence.rs:69`), given the
contents found at the file path: a missing file (`none`) and unparsable
contents both yield the empty state; parsing performs no filtering of any
kind on the parsed entries. -/
def loadAccounts (file : Option Json) : List MonitoredAccount :=
  match file with
  | none => []
  | some j =>
    match parseAccounts j with
    | some l => l
    | none => []

/-- A file-system operation, as issued by the save paths of the two stores
(`std::fs::write`, `std::fs::rename`, `std::fs::remove_file`). -/
inductive FsOp where
  | write (path : String) (data : Json) : FsOp
  | rename (src dst : String) : FsOp
  | remove (path : String) : FsOp

/-- The file system: a map from paths to optional contents. -/
def Fs : Type := String → Option Json

/-- Effect of one file-system operation. -/
def applyFsOp (fs : Fs) : FsOp → Fs
  | FsOp.write p d => fun q => if q = p then some d else fs q
  | FsOp.rename src dst => fun q =>
      if q = dst then fs src else if q = src then none else fs q
  | FsOp.remove p => fun q => if q = p then none else fs q

/-- Runs a list of file-system operations in order. -/
def runFs (fs : Fs) (ops : List FsOp) : Fs :=
  ops.foldl applyFsOp fs

/-- The operation sequence of `AccountPersistenceManager::save`
(`src/persistence.rs:372`) on its happy path: serialize, write the sibling
temporary path `"{file_path}.tmp"`, then rename the temporary file onto
the target. -/
def AccountPersistenceManager.saveOps (file_path : String)
    (accounts : List MonitoredAccount) : List FsOp :=
  [FsOp.write (file_path ++ ".tmp") (serializeAccounts accounts),
   FsOp.rename (file_path ++ ".tmp") file_path]

/-! ### The subscriber registry (`UserManager`, `src/bot.rs:75`) -/

/-- `UserManager`: the set of known Telegram chat ids (Rust
`HashSet<i64>`, modelled as its element list). -/
structure UserManager where
  users : List Int
deriving DecidableEq, Repr

/-- Serialization of the user set: a JSON array of integers. -/
def serializeUsers (users : List Int) : Json :=
  Json.arr (users.map Json.num)

/-- The operation sequence of `UserManager::save` (`src/bot.rs:121`): it
serializes and writes directly to the configured file path — a single
`fs::write` to the target, with no temporary file and no rename. -/
def UserManager.saveOps (file_path : String) (users : List Int) : List FsOp :=
  [FsOp.write file_path (serializeUsers users)]

/-- `UserManager::add_user` (`src/bot.rs:109`): inserts the id, saving
only when it was newly inserted. -/
def UserManager.add_user (m : UserManager) (chat_id : Int) :
    UserManager × Bool × Bool :=
  if m.users.contains chat_id then
    (m, false, false)
  else
    (⟨m.users ++ [chat_id]⟩, true, true)

/-- The atomic write-temp-then-replace shape claimed by spec invariant I4:
the operation sequence writes the serialized value to a sibling temporary
path distinct from the target, then renames it onto the target. -/
def atomicSavePattern (ops : List FsOp) (target : String) : Prop :=
  ∃ tmp data, tmp ≠ target ∧ ops = [FsOp.write tmp data, FsOp.rename tmp target]

/-! ### Transaction fetching (`src/near.rs`)

`Transaction` (`src/near.rs:67`): `block_timestamp` is kept as a string,
exactly as in the source, and `sort_by(|a, b| b.block_timestamp.cmp(&a.block_timestamp))`
compares those strings with Rust's `Ord` on `String`, modelled by Lean's
lexicographic order on `String`. The `actions_agg.deposit` field (an `f64`
used only for display formatting) is omitted: it is floating-point data
that no operation modelled here inspects. -/

structure Transaction where
  hash : String
  signer_id : String
  receiver_id : String
  block_timestamp : String
deriving DecidableEq, Repr

/-- The deduplication loop of `NearClient::fetch_transactions`
(`src/near.rs:188`): walk the upstream list, keeping a transaction only if
its hash was not seen before (the Rust `HashSet::insert` check). -/
def dedupByHash : List Transaction → List String → List Transaction
  | [], _ => []
  | t :: ts, seen =>
    if seen.contains t.hash then
      dedupByHash ts seen
    else
      t :: dedupByHash ts (t.hash :: seen)

/-- The comparator of the `sort_by` call in `fetch_transactions`
(`src/near.rs:200`): descending by `block_timestamp`. -/
def newerFirst (a b : Transaction) : Bool :=
  decide (b.block_timestamp ≤ a.block_timestamp)

/-- The pure part of `NearClient::fetch_transactions` (`src/near.rs:164`),
applied to the transaction list the upstream API returned: deduplicate by
hash, sort newest-first by block timestamp (stably, as Rust's `sort_by`),
truncate to 10. -/
def fetchTransactionsPure (txns : List Transaction) : List Transaction :=
  (((dedupByHash txns []).mergeSort newerFirst).take 10)

/-! ### The poll cycle (the monitoring loop in `src/bot.rs:259`)

One cycle of the background task: snapshot the store via
`get_all_accounts`, then for each snapshot entry fetch the balance from
the external source (modelled as an oracle `String → Except String Nat`).
On success, when the fetched balance differs from the entry's snapshotted
`last_balance`, attempt notification delivery (delivery failure is logged
and ignored, so only the attempt is recorded) and call `update_balance` on
the store with the fetched value for that exact key. On fetch failure the
entry is skipped. -/

/-- A notification delivery attempt: recipient, account, the old
(snapshotted) balance shown — `none` rendered as "Unknown" — and the new
balance. -/
structure BalanceNotice where
  chat_id : Int
  account_id : String
  old_balance : Option Nat
  new_balance : Nat
deriving DecidableEq, Repr

/-- An `update_balance` call made by the cycle: its exact key and value
arguments. -/
structure UpdateCall where
  account_id : String
  chat_id : Int
  balance : Nat
deriving DecidableEq, Repr

/-- State threaded through one poll cycle: the evolving store plus the
notification attempts and `update_balance` calls made so far, in order. -/
structure CycleResult where
  manager : AccountPersistenceManager
  notices : List BalanceNotice
  updateCalls : List UpdateCall
deriving Repr

/-- The body of the `for account in &accounts_to_check` loop
(`src/bot.rs:281`), for one snapshot entry. -/
def cycleStep (fetch : String → Except String Nat) (acc : CycleResult)
    (a : MonitoredAccount) : CycleResult :=
  match fetch a.account_id with
  | Except.ok cur =>
    if a.last_balance ≠ some cur then
      { manager :=
          (acc.manager.update_balance a.account_id a.chat_id cur).manager
        notices := acc.notices ++ [⟨a.chat_id, a.account_id, a.last_balance, cur⟩]
        updateCalls := acc.updateCalls ++ [⟨a.account_id, a.chat_id, cur⟩] }
    else
      acc
  | Except.error _ => acc

/-- One full poll cycle over the snapshot taken from the store. -/
def runCycle (fetch : String → Except String Nat)
    (s : AccountPersistenceManager) : CycleResult :=
  (s.get_all_accounts).foldl (cycleStep fetch) ⟨s, [], []⟩

/-- Store lookup by key: the first entry matching `(account_id, chat_id)`,
as Rust's `iter().find(...)`. -/
def findEntry (l : List MonitoredAccount) (account_id : String) (chat_id : Int) :
    Option MonitoredAccount :=
  l.find? (fun a => keyMatches a account_id chat_id)

/-- Uniqueness invariant I1: no two entries share a
`(account_id, chat_id)` key. -/
def keyUnique (l : List MonitoredAccount) : Prop :=
  l.Pairwise (fun a b => ¬(a.account_id = b.account_id ∧ a.chat_id = b.chat_id))

/-- A store built by a sequence of `add_account` calls starting from the
empty store. -/
def applyAdds (entries : List MonitoredAccount) : AccountPersistenceManager :=
  entries.foldl (fun s e => (s.add_account e).manager) ⟨[]⟩

/-! ### Helper lemmas -/

theorem keyMatches_self (aid : String) (cid : Int) (lb : Option Nat) :
    keyMatches ⟨aid, lb, cid⟩ aid cid = true := by
  simp [keyMatches]

theorem keyMatches_eq_true_iff (a : MonitoredAccount) (aid : String) (cid : Int) :
    keyMatches a aid cid = true ↔ a.account_id = aid ∧ a.chat_id = cid := by
  simp [keyMatches]

/-- `add_account` preserves the key-uniqueness invariant. -/
theorem add_account_preserves_keyUnique (s : AccountPersistenceManager)
    (e : MonitoredAccount) (h : keyUnique s.accounts) :
    keyUnique (s.add_account e).manager.accounts := by
  unfold AccountPersistenceManager.add_account
  by_cases hc : s.accounts.any (fun a => keyMatches a e.account_id e.chat_id) = true
  · simpa [hc] using h
  · simp only [hc, if_neg, Bool.false_eq_true, not_false_eq_true, if_false]
    unfold keyUnique
    rw [List.pairwise_append]
    refine ⟨h, List.pairwise_singleton _ _, ?_⟩
    intro a ha b hb hk
    rcases List.mem_singleton.mp hb with rfl
    apply hc
    rw [List.any_eq_true]
    exact ⟨a, ha, by simp [keyMatches, hk.1, hk.2]⟩

/-! ### C2: idempotent add -/

/-- **C2.** `add` (the `/add` command path through
`AccountPersistenceManager::add_account`) returns `false` and leaves the
store unchanged, without persisting, when an entry with the same
`(account_id, chat_id)` key already exists; otherwise it appends the entry
with `last_balance = none`, persists, and returns `true` — and adding the
same key again on the resulting store returns `false` and changes nothing,
so the store grew by exactly one entry. -/
theorem add_idempotent_spec (s : AccountPersistenceManager) (aid : String)
    (cid : Int) :
    (hasKey s aid cid → cmdAdd s aid cid = ⟨s, false, false⟩) ∧
    (¬ hasKey s aid cid →
      (cmdAdd s aid cid).manager.accounts = s.accounts ++ [⟨aid, none, cid⟩] ∧
      (cmdAdd s aid cid).result = true ∧
      (cmdAdd s aid cid).saved = true ∧
      (cmdAdd s aid cid).manager.accounts.length = s.accounts.length + 1 ∧
      cmdAdd (cmdAdd s aid cid).manager aid cid =
        ⟨(cmdAdd s aid cid).manager, false, false⟩) := by
  unfold cmdAdd AccountPersistenceManager.add_account hasKey
  by_cases h : s.accounts.any (fun a => keyMatches a aid cid) = true
  · simp [h]
  · refine ⟨fun hh => absurd hh h, fun _ => ?_⟩
    rw [if_neg h]
    refine ⟨rfl, rfl, rfl, by simp, ?_⟩
    have hdup : ((s.accounts ++ [(⟨aid, none, cid⟩ : MonitoredAccount)]).any
        (fun a => keyMatches a aid cid)) = true := by
      rw [List.any_eq_true]
      exact ⟨⟨aid, none, cid⟩, by simp, keyMatches_self aid cid none⟩
    rw [if_pos hdup]

/-! ### C5 / C10: the persistence codec -/

theorem parseAccount_serializeAccount (a : MonitoredAccount) :
    parseAccount (serializeAccount a) = some a := by
  cases a with
  | mk aid lb cid =>
    cases lb with
    | none => rfl
    | some v =>
      have h : ¬((v : Int) < 0) := not_lt.2 (Int.natCast_nonneg v)
      simp [serializeAccount, parseAccount, h]

theorem parseAccountList_map_serialize (l : List MonitoredAccount) :
    parseAccountList (l.map serializeAccount) = some l := by
  induction l with
  | nil => rfl
  | cons a rest ih =>
    simp [parseAccountList, parseAccount_serializeAccount, ih]

/-- **C5.** Writing the persisted snapshot (the save path of the watchlist
store: serialize, write the temporary file, rename onto the target) and
then loading from the target path reproduces an equal collection of
entries, for every non-empty store — including entries with
`last_balance = none` and balances exceeding `2^64`. -/
theorem persistence_roundtrip (fs : Fs) (path : String)
    (l : List MonitoredAccount) (_h : l ≠ []) :
    loadAccounts (runFs fs (AccountPersistenceManager.saveOps path l) path) = l := by
  have hw : runFs fs (AccountPersistenceManager.saveOps path l) path =
      some (serializeAccounts l) := by
    simp [runFs, AccountPersistenceManager.saveOps, applyFsOp]
  rw [hw]
  simp [loadAccounts, parseAccounts, serializeAccounts,
    parseAccountList_map_serialize]

/-- An entry whose balance exceeds `2^64` (here `2^64 + 1`). -/
def demoEntryBig : MonitoredAccount := ⟨"alice.near", some 18446744073709551617, 7⟩

/-- A not-yet-sampled entry (`last_balance = none`). -/
def demoEntryFresh : MonitoredAccount := ⟨"bob.near", none, 8⟩

theorem persistence_roundtrip_witness :
    loadAccounts (runFs (fun _ => none)
      (AccountPersistenceManager.saveOps "monitored_accounts.json"
        [demoEntryBig, demoEntryFresh]) "monitored_accounts.json") =
      [demoEntryBig, demoEntryFresh] :=
  persistence_roundtrip (fun _ => none) "monitored_accounts.json"
    [demoEntryBig, demoEntryFresh] (List.cons_ne_nil _ _)

/-- A concrete watchlist entry, twice in the same snapshot file. -/
def dupEntry : MonitoredAccount := ⟨"alice.near", some 1, 7⟩

/-- **C10.** `load` performs no duplicate-key filtering: a parseable
snapshot holding the same `(account_id, chat_id)` entry twice loads to a
store containing both copies, a state that violates the key-uniqueness
invariant — so I1 holds only for stores built through `add`, not for
arbitrary loaded states. -/
theorem load_no_dedup :
    loadAccounts (some (serializeAccounts [dupEntry, dupEntry])) =
      [dupEntry, dupEntry] ∧
    ¬ keyUnique [dupEntry, dupEntry] := by
  constructor
  · have hp : parseAccountList [serializeAccount dupEntry, serializeAccount dupEntry]
        = some [dupEntry, dupEntry] :=
      parseAccountList_map_serialize [dupEntry, dupEntry]
    simp [loadAccounts, parseAccounts, serializeAccounts, hp]
  · intro h
    unfold keyUnique at h
    rw [List.pairwise_cons] at h
    exact h.1 dupEntry (by simp) ⟨rfl, rfl⟩

/-! ### C3: transaction fetching -/

theorem dedupByHash_subset :
    ∀ (l : List Transaction) (seen : List String) (t : Transaction),
    t ∈ dedupByHash l seen → t ∈ l := by
  intro l
  induction l with
  | nil => intro seen t ht; simp [dedupByHash] at ht
  | cons x xs ih =>
    intro seen t ht
    unfold dedupByHash at ht
    by_cases hc : seen.contains x.hash = true
    · rw [if_pos hc] at ht
      exact List.mem_cons_of_mem _ (ih seen t ht)
    · rw [if_neg hc] at ht
      rcases List.mem_cons.mp ht with rfl | ht'
      · exact List.mem_cons_self _ _
      · exact List.mem_cons_of_mem _ (ih _ t ht')

theorem dedupByHash_nodup :
    ∀ (l : List Transaction) (seen : List String),
    ((dedupByHash l seen).map (fun t => t.hash)).Nodup ∧
    ∀ s ∈ (dedupByHash l seen).map (fun t => t.hash), s ∉ seen := by
  intro l
  induction l with
  | nil => intro seen; simp [dedupByHash]
  | cons x xs ih =>
    intro seen
    unfold dedupByHash
    by_cases hc : seen.contains x.hash = true
    · rw [if_pos hc]
      exact ih seen
    · rw [if_neg hc]
      obtain ⟨ihn, ihs⟩ := ih (x.hash :: seen)
      have hxs : x.hash ∉ seen := by simpa using hc
      simp only [List.map_cons, List.nodup_cons]
      refine ⟨⟨fun hmem => (ihs _ hmem) (List.mem_cons_self _ _), ihn⟩, ?_⟩
      intro s hs
      rcases List.mem_cons.mp hs with rfl | hs'
      · exact hxs
      · exact fun hin => (ihs s hs') (List.mem_cons_of_mem _ hin)

theorem newerFirst_trans (a b c : Transaction) :
    newerFirst a b = true → newerFirst b c = true → newerFirst a c = true := by
  intro h1 h2
  simp only [newerFirst, decide_eq_true_eq] at *
  exact le_trans h2 h1

theorem newerFirst_total (a b : Transaction) :
    (newerFirst a b || newerFirst b a) = true := by
  simp only [newerFirst, Bool.or_eq_true, decide_eq_true_eq]
  exact le_total b.block_timestamp a.block_timestamp

/-- **C3.** For every transaction list returned by the upstream API,
`fetch_transactions` yields a list of at most 10 elements, with pairwise
distinct hashes, ordered newest-first by block timestamp (descending in
the string order the source compares timestamps with), and drawn from the
input list. -/
theorem fetch_transactions_spec (txns : List Transaction) :
    (fetchTransactionsPure txns).length ≤ 10 ∧
    ((fetchTransactionsPure txns).map (fun t => t.hash)).Nodup ∧
    (fetchTransactionsPure txns).Pairwise
      (fun a b => b.block_timestamp ≤ a.block_timestamp) ∧
    ∀ t ∈ fetchTransactionsPure txns, t ∈ txns := by
  unfold fetchTransactionsPure
  refine ⟨List.length_take_le _ _, ?_, ?_, ?_⟩
  · have h1 := (dedupByHash_nodup txns []).1
    have hperm := List.mergeSort_perm (dedupByHash txns []) newerFirst
    have h2 : (((dedupByHash txns []).mergeSort newerFirst).map
        (fun t => t.hash)).Nodup := ((hperm.map _).nodup_iff).mpr h1
    rw [List.map_take]
    exact List.Nodup.sublist (List.take_sublist _ _) h2
  · have hs := @List.sorted_mergeSort Transaction newerFirst
      (fun a b c => newerFirst_trans a b c)
      (fun a b => newerFirst_total a b) (dedupByHash txns [])
    have hs' : ((dedupByHash txns []).mergeSort newerFirst).Pairwise
        (fun a b => b.block_timestamp ≤ a.block_timestamp) :=
      hs.imp (fun hab => by simpa [newerFirst] using hab)
    exact List.Pairwise.sublist (List.take_sublist _ _) hs'
  · intro t ht
    have h1 : t ∈ (dedupByHash txns []).mergeSort newerFirst :=
      (List.take_sublist _ _).mem ht
    have h2 : t ∈ dedupByHash txns [] :=
      (List.mergeSort_perm _ _).mem_iff.mp h1
    exact dedupByHash_subset txns [] t h2

/-! ### C6 / C7: the poll cycle -/

/-- The notification attempt one snapshot entry produces in a cycle:
`some` exactly when the fetch succeeds and the fetched balance differs
from the snapshotted `last_balance`. -/
def notifOf (fetch : String → Except String Nat) (a : MonitoredAccount) :
    Option BalanceNotice :=
  match fetch a.account_id with
  | Except.ok cur =>
    if a.last_balance ≠ some cur then
      some ⟨a.chat_id, a.account_id, a.last_balance, cur⟩
    else
      none
  | Except.error _ => none

/-- The `update_balance` call one snapshot entry produces in a cycle. -/
def callOf (fetch : String → Except String Nat) (a : MonitoredAccount) :
    Option UpdateCall :=
  match fetch a.account_id with
  | Except.ok cur =>
    if a.last_balance ≠ some cur then
      some ⟨a.account_id, a.chat_id, cur⟩
    else
      none
  | Except.error _ => none

/-- Replays a list of `update_balance` calls against a store. -/
def applyCalls (s : AccountPersistenceManager) (calls : List UpdateCall) :
    AccountPersistenceManager :=
  calls.foldl
    (fun st c => (st.update_balance c.account_id c.chat_id c.balance).manager) s

theorem runCycle_foldl_spec (fetch : String → Except String Nat) :
    ∀ (l : List MonitoredAccount) (acc : CycleResult),
    (l.foldl (cycleStep fetch) acc).notices =
      acc.notices ++ l.filterMap (notifOf fetch) ∧
    (l.foldl (cycleStep fetch) acc).updateCalls =
      acc.updateCalls ++ l.filterMap (callOf fetch) ∧
    (l.foldl (cycleStep fetch) acc).manager =
      applyCalls acc.manager (l.filterMap (callOf fetch)) := by
  intro l
  induction l with
  | nil => intro acc; simp [applyCalls]
  | cons a rest ih =>
    intro acc
    rw [List.foldl_cons]
    cases hf : fetch a.account_id with
    | error e =>
      have h1 : notifOf fetch a = none := by simp [notifOf, hf]
      have h2 : callOf fetch a = none := by simp [callOf, hf]
      have h3 : cycleStep fetch acc a = acc := by simp [cycleStep, hf]
      rw [h3]
      simpa only [List.filterMap_cons, h1, h2] using ih acc
    | ok cur =>
      by_cases hch : a.last_balance = some cur
      · have h1 : notifOf fetch a = none := by simp [notifOf, hf, hch]
        have h2 : callOf fetch a = none := by simp [callOf, hf, hch]
        have h3 : cycleStep fetch acc a = acc := by simp [cycleStep, hf, hch]
        rw [h3]
        simpa only [List.filterMap_cons, h1, h2] using ih acc
      · have h1 : notifOf fetch a =
            some ⟨a.chat_id, a.account_id, a.last_balance, cur⟩ := by
          simp [notifOf, hf, hch]
        have h2 : callOf fetch a = some ⟨a.account_id, a.chat_id, cur⟩ := by
          simp [callOf, hf, hch]
        have h3 : cycleStep fetch acc a =
            { manager :=
                (acc.manager.update_balance a.account_id a.chat_id cur).manager
              notices :=
                acc.notices ++ [⟨a.chat_id, a.account_id, a.last_balance, cur⟩]
              updateCalls := acc.updateCalls ++ [⟨a.account_id, a.chat_id, cur⟩] } := by
          simp [cycleStep, hf, hch]
        obtain ⟨ih1, ih2, ih3⟩ := ih
          { manager :=
              (acc.manager.update_balance a.account_id a.chat_id cur).manager
            notices :=
              acc.notices ++ [⟨a.chat_id, a.account_id, a.last_balance, cur⟩]
            updateCalls := acc.updateCalls ++ [⟨a.account_id, a.chat_id, cur⟩] }
        refine ⟨?_, ?_, ?_⟩
        · rw [h3, ih1]
          simp [List.filterMap_cons, h1]
        · rw [h3, ih2]
          simp [List.filterMap_cons, h2]
        · rw [h3, ih3]
          simp [List.filterMap_cons, h2, applyCalls]

theorem runCycle_notices (fetch : String → Except String Nat)
    (s : AccountPersistenceManager) :
    (runCycle fetch s).notices = s.accounts.filterMap (notifOf fetch) := by
  simpa [runCycle, AccountPersistenceManager.get_all_accounts] using
    (runCycle_foldl_spec fetch s.accounts ⟨s, [], []⟩).1

theorem runCycle_updateCalls (fetch : String → Except String Nat)
    (s : AccountPersistenceManager) :
    (runCycle fetch s).updateCalls = s.accounts.filterMap (callOf fetch) := by
  simpa [runCycle, AccountPersistenceManager.get_all_accounts] using
    (runCycle_foldl_spec fetch s.accounts ⟨s, [], []⟩).2.1

theorem runCycle_manager (fetch : String → Except String Nat)
    (s : AccountPersistenceManager) :
    (runCycle fetch s).manager =
      applyCalls s (s.accounts.filterMap (callOf fetch)) := by
  simpa [runCycle, AccountPersistenceManager.get_all_accounts] using
    (runCycle_foldl_spec fetch s.accounts ⟨s, [], []⟩).2.2

/-- `keyMatches` ignores `last_balance`. -/
theorem keyMatches_set_balance (a : MonitoredAccount) (v : Nat)
    (aid : String) (cid : Int) :
    keyMatches { a with last_balance := some v } aid cid = keyMatches a aid cid := by
  simp [keyMatches]

theorem updateBalanceFirst_frame (aid : String) (cid : Int) (v : Nat)
    (qaid : String) (qcid : Int) (hq : ¬(qaid = aid ∧ qcid = cid)) :
    ∀ (l l' : List MonitoredAccount) (chg : Bool),
    AccountPersistenceManager.updateBalanceFirst aid cid v l = some (l', chg) →
    l'.find? (fun a => keyMatches a qaid qcid) =
      l.find? (fun a => keyMatches a qaid qcid) := by
  intro l
  induction l with
  | nil =>
    intro l' chg h
    simp [AccountPersistenceManager.updateBalanceFirst] at h
  | cons a rest ih =>
    intro l' chg h
    by_cases hk : keyMatches a aid cid = true
    · rw [AccountPersistenceManager.updateBalanceFirst, if_pos hk] at h
      have hqa : keyMatches a qaid qcid = false := by
        rcases Bool.eq_false_or_eq_true (keyMatches a qaid qcid) with ht | hfq
        · exfalso
          obtain ⟨e1, e2⟩ := (keyMatches_eq_true_iff a qaid qcid).mp ht
          obtain ⟨e3, e4⟩ := (keyMatches_eq_true_iff a aid cid).mp hk
          exact hq ⟨e1 ▸ e3, e2 ▸ e4⟩
        · exact hfq
      by_cases hch : a.last_balance ≠ some v
      · rw [if_pos hch] at h
        have hp : { a with last_balance := some v } :: rest = l' ∧ true = chg := by
          simpa using h
        rw [← hp.1]
        rw [List.find?_cons_of_neg _ (by simp [keyMatches_set_balance, hqa]),
          List.find?_cons_of_neg _ (by simp [hqa])]
      · rw [if_neg hch] at h
        have hp : a :: rest = l' ∧ false = chg := by simpa using h
        rw [← hp.1]
    · rw [AccountPersistenceManager.updateBalanceFirst, if_neg hk] at h
      obtain ⟨p, hp, hcons⟩ := Option.map_eq_some'.mp h
      have hl' : l' = a :: p.1 := by
        have h5 := congrArg Prod.fst hcons
        simpa using h5.symm
      rw [hl']
      cases hqa : keyMatches a qaid qcid with
      | true =>
        rw [List.find?_cons_of_pos _ (by simp [hqa]),
          List.find?_cons_of_pos _ (by simp [hqa])]
      | false =>
        rw [List.find?_cons_of_neg _ (by simp [hqa]),
          List.find?_cons_of_neg _ (by simp [hqa])]
        exact ih p.1 p.2 hp

theorem update_balance_frame (s : AccountPersistenceManager) (aid : String)
    (cid : Int) (v : Nat) (qaid : String) (qcid : Int)
    (hq : ¬(qaid = aid ∧ qcid = cid)) :
    findEntry (s.update_balance aid cid v).manager.accounts qaid qcid =
      findEntry s.accounts qaid qcid := by
  unfold AccountPersistenceManager.update_balance
  cases h : AccountPersistenceManager.updateBalanceFirst aid cid v s.accounts with
  | none => rfl
  | some p =>
    exact updateBalanceFirst_frame aid cid v qaid qcid hq s.accounts p.1 p.2
      (by rw [h])

theorem applyCalls_frame (qaid : String) (qcid : Int) :
    ∀ (calls : List UpdateCall) (s : AccountPersistenceManager),
    (∀ c ∈ calls, ¬(qaid = c.account_id ∧ qcid = c.chat_id)) →
    findEntry (applyCalls s calls).accounts qaid qcid =
      findEntry s.accounts qaid qcid := by
  intro calls
  induction calls with
  | nil => intro s _; rfl
  | cons c rest ih =>
    intro s hall
    have h1 : findEntry
        (s.update_balance c.account_id c.chat_id c.balance).manager.accounts
        qaid qcid = findEntry s.accounts qaid qcid :=
      update_balance_frame s c.account_id c.chat_id c.balance qaid qcid
        (hall c (List.mem_cons_self _ _))
    have h2 := ih (s.update_balance c.account_id c.chat_id c.balance).manager
      (fun d hd => hall d (List.mem_cons_of_mem _ hd))
    calc findEntry (applyCalls s (c :: rest)).accounts qaid qcid
        = findEntry (applyCalls
            (s.update_balance c.account_id c.chat_id c.balance).manager
            rest).accounts qaid qcid := rfl
      _ = findEntry s.accounts qaid qcid := h2.trans h1

/-- **C6.** For every snapshot entry whose balance fetch succeeds during a
poll cycle, a notification is delivered (with the snapshotted value as the
old side, `none` rendered as unknown) and `update_balance` is called with
the fetched value for that exact `(account_id, chat_id)` key, if and only
if the fetched balance differs from the entry's snapshotted
`last_balance` — a snapshotted `none` always counts as changed. -/
theorem cycle_notify_iff_changed (fetch : String → Except String Nat)
    (s : AccountPersistenceManager) (a : MonitoredAccount) (cur : Nat)
    (ha : a ∈ s.accounts) (hf : fetch a.account_id = Except.ok cur) :
    ((⟨a.chat_id, a.account_id, a.last_balance, cur⟩ : BalanceNotice) ∈
        (runCycle fetch s).notices ∧
     (⟨a.account_id, a.chat_id, cur⟩ : UpdateCall) ∈
        (runCycle fetch s).updateCalls) ↔
    a.last_balance ≠ some cur := by
  rw [runCycle_notices, runCycle_updateCalls]
  constructor
  · rintro ⟨hn, _⟩
    rw [List.mem_filterMap] at hn
    obtain ⟨b, _, hnb⟩ := hn
    unfold notifOf at hnb
    cases hfb : fetch b.account_id with
    | error e => rw [hfb] at hnb; exact absurd hnb (by simp)
    | ok curb =>
      rw [hfb] at hnb
      by_cases hch : b.last_balance = some curb
      · simp [hch] at hnb
      · simp only [ne_eq, hch, not_false_eq_true, if_true, Option.some_inj,
          BalanceNotice.mk.injEq] at hnb
        obtain ⟨_, _, h3, h4⟩ := hnb
        rw [← h3, ← h4]
        exact hch
  · intro hch
    constructor
    · rw [List.mem_filterMap]
      exact ⟨a, ha, by simp [notifOf, hf, hch]⟩
    · rw [List.mem_filterMap]
      exact ⟨a, ha, by simp [callOf, hf, hch]⟩

/-- A data source that always reports balance 500. -/
def demoFetch : String → Except String Nat := fun _ => Except.ok 500

/-- A store with one not-yet-sampled entry. -/
def demoStore : AccountPersistenceManager := ⟨[⟨"alice.test", none, 7⟩]⟩

theorem cycle_notify_iff_changed_witness :
    (⟨7, "alice.test", none, 500⟩ : BalanceNotice) ∈
      (runCycle demoFetch demoStore).notices :=
  ((cycle_notify_iff_changed demoFetch demoStore ⟨"alice.test", none, 7⟩ 500
    (by simp [demoStore]) rfl).mpr (by simp)).1

/-- **C7.** A fetch failure for one snapshot entry leaves that entry's
store state untouched by the cycle, and does not prevent any other entry
with a successful fetch and a changed balance from being notified and
having its `update_balance` call made. -/
theorem cycle_skip_and_continue (fetch : String → Except String Nat)
    (s : AccountPersistenceManager) (a : MonitoredAccount) (err : String)
    (_ha : a ∈ s.accounts) (hf : fetch a.account_id = Except.error err) :
    findEntry (runCycle fetch s).manager.accounts a.account_id a.chat_id =
      findEntry s.accounts a.account_id a.chat_id ∧
    ∀ b ∈ s.accounts, ∀ cur, fetch b.account_id = Except.ok cur →
      b.last_balance ≠ some cur →
      (⟨b.chat_id, b.account_id, b.last_balance, cur⟩ : BalanceNotice) ∈
        (runCycle fetch s).notices ∧
      (⟨b.account_id, b.chat_id, cur⟩ : UpdateCall) ∈
        (runCycle fetch s).updateCalls := by
  constructor
  · rw [runCycle_manager]
    apply applyCalls_frame
    intro c hc
    rw [List.mem_filterMap] at hc
    obtain ⟨b, _, hcb⟩ := hc
    unfold callOf at hcb
    cases hfb : fetch b.account_id with
    | error e => rw [hfb] at hcb; exact absurd hcb (by simp)
    | ok curb =>
      rw [hfb] at hcb
      by_cases hch : b.last_balance = some curb
      · simp [hch] at hcb
      · simp only [ne_eq, hch, not_false_eq_true, if_true,
          Option.some_inj] at hcb
        rintro ⟨he1, _⟩
        subst hcb
        simp only [] at he1
        rw [he1, hfb] at hf
        exact Except.noConfusion hf
  · intro b hb cur hfb hch
    constructor
    · rw [runCycle_notices, List.mem_filterMap]
      exact ⟨b, hb, by simp [notifOf, hfb, hch]⟩
    · rw [runCycle_updateCalls, List.mem_filterMap]
      exact ⟨b, hb, by simp [callOf, hfb, hch]⟩

/-- A data source for which one account is down and every other account
reports balance 500. -/
def demoFetchPartial : String → Except String Nat := fun aid =>
  if aid = "down.test" then Except.error "rpc down" else Except.ok 500

/-- A store watching the failing account and a healthy one. -/
def demoStoreTwo : AccountPersistenceManager :=
  ⟨[⟨"down.test", some 1, 9⟩, ⟨"alice.test", none, 7⟩]⟩

theorem cycle_skip_and_continue_witness :
    findEntry (runCycle demoFetchPartial demoStoreTwo).manager.accounts
      "down.test" 9 = findEntry demoStoreTwo.accounts "down.test" 9 ∧
    (⟨7, "alice.test", none, 500⟩ : BalanceNotice) ∈
      (runCycle demoFetchPartial demoStoreTwo).notices := by
  have h := cycle_skip_and_continue demoFetchPartial demoStoreTwo
    ⟨"down.test", some 1, 9⟩ "rpc down" (by simp [demoStoreTwo]) rfl
  exact ⟨h.1, (h.2 ⟨"alice.test", none, 7⟩ (by simp [demoStoreTwo]) 500 rfl
    (by simp)).1⟩

/-! ### C1: atomicity of persistence -/

/-- **C1, counterexample.** The Subscriber Registry's save
(`UserManager::save`, `src/bot.rs:121`) does not follow the
write-temp-then-atomically-replace pattern: at the concrete state
`users = [7]`, `file_path = "users.json"`, its operation sequence is a
single direct write to the target path, so the claim that every successful
mutation of either store persists via a sibling temporary path and an
atomic replace is false. -/
theorem userSave_not_atomic_cex :
    ¬ atomicSavePattern (UserManager.saveOps "users.json" [7]) "users.json" := by
  rintro ⟨tmp, data, hne, heq⟩
  have hlen := congrArg List.length heq
  simp [UserManager.saveOps] at hlen

/-- **C1, amended.** Every successful mutation of the Watchlist Store
persists by serializing, writing a sibling temporary path, and atomically
renaming it onto the target — so during that save the target path always
holds either the previous contents or the new complete snapshot, never an
intermediate. The Subscriber Registry, by contrast, serializes and writes
directly to its target path with no temporary file. -/
theorem save_atomicity_amended (path : String)
    (accounts : List MonitoredAccount) (users : List Int) (fs : Fs) :
    atomicSavePattern (AccountPersistenceManager.saveOps path accounts) path ∧
    (∀ k, runFs fs ((AccountPersistenceManager.saveOps path accounts).take k) path
        = fs path ∨
      runFs fs ((AccountPersistenceManager.saveOps path accounts).take k) path
        = some (serializeAccounts accounts)) ∧
    UserManager.saveOps path users = [FsOp.write path (serializeUsers users)] := by
  have hlen : (path ++ ".tmp" : String) ≠ path := by
    intro h
    have h2 := congrArg String.length h
    rw [String.length_append] at h2
    have h4 : (".tmp" : String).length = 4 := rfl
    omega
  refine ⟨⟨path ++ ".tmp", serializeAccounts accounts, hlen, rfl⟩, ?_, rfl⟩
  intro k
  match k with
  | 0 => exact Or.inl rfl
  | 1 =>
    refine Or.inl ?_
    show (if path = path ++ ".tmp" then some (serializeAccounts accounts)
      else fs path) = fs path
    exact if_neg (fun h => hlen h.symm)
  | (n + 2) =>
    refine Or.inr ?_
    have htake : (AccountPersistenceManager.saveOps path accounts).take (n + 2)
        = AccountPersistenceManager.saveOps path accounts :=
      List.take_of_length_le (by simp [AccountPersistenceManager.saveOps])
    rw [htake]
    simp [runFs, AccountPersistenceManager.saveOps, applyFsOp]

/-! ### C4: rename -/

theorem renameFirst_eq_none_iff (o n : String) (cid : Int)
    (l : List MonitoredAccount) :
    AccountPersistenceManager.renameFirst o n cid l = none ↔
      ∀ a ∈ l, keyMatches a o cid = false := by
  induction l with
  | nil => simp [AccountPersistenceManager.renameFirst]
  | cons a rest ih =>
    by_cases h : keyMatches a o cid = true
    · simp [AccountPersistenceManager.renameFirst, h]
    · have hf : keyMatches a o cid = false := by
        simpa using h
      simp [AccountPersistenceManager.renameFirst, hf, ih]

theorem renameFirst_some_spec (o n : String) (cid : Int) :
    ∀ (l l' : List MonitoredAccount),
    AccountPersistenceManager.renameFirst o n cid l = some l' →
    ∃ pre a post, l = pre ++ a :: post ∧
      (∀ b ∈ pre, keyMatches b o cid = false) ∧
      keyMatches a o cid = true ∧
      l' = pre ++ { a with account_id := n, last_balance := none } :: post := by
  intro l
  induction l with
  | nil => intro l' h; simp [AccountPersistenceManager.renameFirst] at h
  | cons a rest ih =>
    intro l' h
    by_cases hk : keyMatches a o cid = true
    · rw [AccountPersistenceManager.renameFirst, if_pos hk] at h
      injection h with h'
      exact ⟨[], a, rest, by simp, by simp, hk, h'.symm⟩
    · rw [AccountPersistenceManager.renameFirst, if_neg hk] at h
      obtain ⟨l'', hl'', rfl⟩ := Option.map_eq_some'.mp h
      obtain ⟨pre, b, post, h1, h2, h3, h4⟩ := ih l'' hl''
      refine ⟨a :: pre, b, post, by simp [h1], ?_, h3, by simp [h4]⟩
      intro c hc
      rcases List.mem_cons.mp hc with rfl | hc'
      · simpa using hk
      · exact h2 c hc'

/-- **C4.** `update_account` (the `rename` operation): when no entry
matches `(old_id, chat_id)` it returns the `"Account … not found"` error
and performs no mutation and no save; when an entry matches, it returns
`ok`, saves, and rewrites exactly the first matching entry to carry the
new account id with `last_balance` reset to `none`, leaving every other
entry in place. -/
theorem rename_spec (s : AccountPersistenceManager) (old_id : String)
    (cid : Int) (new_id : String) :
    (¬ hasKey s old_id cid →
      s.update_account old_id cid new_id =
        ⟨s, Except.error ("Account " ++ old_id ++ " not found"), false⟩) ∧
    (hasKey s old_id cid →
      (s.update_account old_id cid new_id).result = Except.ok () ∧
      (s.update_account old_id cid new_id).saved = true ∧
      ∃ pre a post, s.accounts = pre ++ a :: post ∧
        (∀ b ∈ pre, keyMatches b old_id cid = false) ∧
        keyMatches a old_id cid = true ∧
        (s.update_account old_id cid new_id).manager.accounts =
          pre ++ { a with account_id := new_id, last_balance := none } :: post) := by
  cases hrn : AccountPersistenceManager.renameFirst old_id new_id cid s.accounts with
  | none =>
    have hall := (renameFirst_eq_none_iff old_id new_id cid s.accounts).mp hrn
    have hnk : ¬ hasKey s old_id cid := by
      simp only [hasKey, List.any_eq_true]
      rintro ⟨a, ha, hk⟩
      rw [hall a ha] at hk
      exact Bool.false_ne_true hk
    refine ⟨fun _ => ?_, fun hk => absurd hk hnk⟩
    unfold AccountPersistenceManager.update_account
    rw [hrn]
  | some l' =>
    obtain ⟨pre, a, post, h1, h2, h3, h4⟩ :=
      renameFirst_some_spec old_id new_id cid s.accounts l' hrn
    have hk : hasKey s old_id cid := by
      simp only [hasKey, List.any_eq_true]
      exact ⟨a, by rw [h1]; simp, h3⟩
    refine ⟨fun hnk => absurd hk hnk, fun _ => ?_⟩
    unfold AccountPersistenceManager.update_account
    rw [hrn]
    exact ⟨rfl, rfl, pre, a, post, h1, h2, h3, h4⟩

/-! ### C8: uniqueness under add sequences -/

/-- **C8.** For every sequence of `add_account` calls starting from the
empty store, the resulting store never contains two entries sharing the
same `(account_id, chat_id)` key (invariant I1 / property P1). -/
theorem add_sequences_key_unique (entries : List MonitoredAccount) :
    keyUnique (applyAdds entries).accounts := by
  suffices h : ∀ (s : AccountPersistenceManager), keyUnique s.accounts →
      keyUnique (entries.foldl (fun s e => (s.add_account e).manager) s).accounts by
    exact h ⟨[]⟩ List.Pairwise.nil
  induction entries with
  | nil => intro s hs; exact hs
  | cons e rest ih =>
    intro s hs
    exact ih _ (add_account_preserves_keyUnique s e hs)

/-! ### C9: remove is exact -/

/-- **C9.** `remove_account` deletes exactly the entries whose key equals
`(account_id, chat_id)`: the resulting list is the filter keeping every
non-matching entry (so entries with a different chat for the same account,
or a different account, survive unchanged), the returned Boolean reports
whether some entry matched, and a save happens exactly when something was
removed. -/
theorem remove_exact_spec (s : AccountPersistenceManager) (aid : String)
    (cid : Int) :
    (s.remove_account aid cid).manager.accounts =
      s.accounts.filter (fun a => !(keyMatches a aid cid)) ∧
    ((s.remove_account aid cid).result = true ↔
      ∃ a ∈ s.accounts, keyMatches a aid cid = true) ∧
    (s.remove_account aid cid).saved = (s.remove_account aid cid).result ∧
    (∀ a ∈ s.accounts, keyMatches a aid cid = false →
      a ∈ (s.remove_account aid cid).manager.accounts) := by
  unfold AccountPersistenceManager.remove_account
  refine ⟨rfl, ?_, rfl, ?_⟩
  · simp only [decide_eq_true_eq]
    rw [List.length_filter_lt_length_iff_exists]
    simp
  · intro a ha hk
    simp only [List.mem_filter]
    exact ⟨ha, by simp [hk]⟩
